import Mathlib

/-!
Verification of the retrieval-augmented chat endpoint
(`app/api/chat/route.ts`, `app/page.tsx`, and the bundled upsert script).

The TypeScript source is shallowly embedded:

* a stored `rag_embeddings` row becomes `Row` (the SQL column `section` is
  rendered as the field `sectionLabel`, since `section` is reserved in Lean);
* the pgvector query `ORDER BY embedding <=> $1::vector LIMIT k` becomes a
  merge sort by ascending cosine distance, realized computably through the
  rational key `simKey` (signed squared cosine similarity), which induces the
  same ordering as real-valued cosine distance (proved below);
* the `ReadableStream start` callback of `POST` becomes `relayRun`, a function
  from the list of upstream read results (each read either yields an event or
  throws) to the list of controller operations performed;
* the `POST` handler becomes `postHandler`, a pure function of the environment,
  the parsed request body, the upstream embedding response, a failure oracle
  for seed inserts, and the store contents; it returns the HTTP outcome
  together with the ordered trace of external calls performed.

Numbers flowing through embeddings are modelled as rationals; strings as Lean
strings.
-/

namespace ResumeRag

/-- A row of the `rag_embeddings` table: `id TEXT PRIMARY KEY`,
`section TEXT NOT NULL` (here `sectionLabel`), `chunk_text TEXT NOT NULL`,
`embedding VECTOR(EMBEDDING_DIM) NOT NULL`. -/
structure Row where
  id : String
  sectionLabel : String
  chunk_text : String
  embedding : List ℚ
  deriving DecidableEq, Repr

/-- The observable state of the similarity store: the stored rows. -/
abbrev Store := List Row

/-- One `INSERT ... ON CONFLICT (id) DO UPDATE SET section, chunk_text,
embedding` statement: if a row with the same `id` exists it is overwritten
field-by-field (hence replaced, the key being equal), otherwise the new row is
appended. -/
def upsertRow (s : Store) (r : Row) : Store :=
  if s.any (fun x => x.id == r.id) then
    s.map (fun x => if x.id == r.id then r else x)
  else s ++ [r]

/-- The configured embedding dimension, `Number(process.env.EMBEDDING_DIM ||
"3072")` with the default configuration. -/
def EMBEDDING_DIM : ℕ := 3072

/-- A JSON value sitting in the `delta` field of an upstream event; the route
only distinguishes strings (`typeof event.data?.delta === "string"`) from
everything else. -/
inductive JVal where
  | str (s : String)
  | nonStr
  deriving DecidableEq, Repr

/-- An upstream streamed event as inspected by the relay loop: its `type`
discriminator, the optional `data.type` discriminator, and the optional
`data.delta` payload. -/
structure SEvent where
  type : String
  dataType : Option String
  delta : Option JVal
  deriving DecidableEq, Repr

/-- The text enqueued downstream for one event, following the guard in the
`for await` loop: the event type must be `"raw_model_stream_event"`, the data
type `"output_text_delta"`, the delta a string, and the delta non-empty. -/
def emittedDelta (e : SEvent) : Option String :=
  if e.type = "raw_model_stream_event" ∧ e.dataType = some ("output_text_delta") then
    match e.delta with
    | some (JVal.str s) => if 0 < s.length then some s else none
    | _ => none
  else none

/-- The text delta carried by a well-formed `output_text_delta` event
(spec-side notion used by claim C1): correct event type, correct data type,
and a string delta; no emptiness requirement. -/
def wellFormedDelta (e : SEvent) : Option String :=
  if e.type = "raw_model_stream_event" ∧ e.dataType = some ("output_text_delta") then
    match e.delta with
    | some (JVal.str s) => some s
    | _ => none
  else none

/-- An operation performed on the downstream `ReadableStream` controller. -/
inductive CtrlOp where
  | enqueue (s : String)
  | close
  | error
  deriving DecidableEq, Repr

/-- One upstream read: either an event was produced, or the iteration (or the
final `await agentRun.completed`) threw, carrying an error message. -/
abbrev UpstreamRead := Except String SEvent

/-- The `ReadableStream start` callback: iterate the upstream reads, enqueue
the filtered deltas, `close()` after the last read succeeds, and on the first
thrown failure leave the loop and call `error()` (the surrounding
`try ... catch`). -/
def relayRun : List UpstreamRead → List CtrlOp
  | [] => [CtrlOp.close]
  | Except.error _ :: _ => [CtrlOp.error]
  | Except.ok e :: rest =>
    (match emittedDelta e with
     | some s => [CtrlOp.enqueue s]
     | none => []) ++ relayRun rest

/-- The string enqueued by a controller operation, if any. -/
def enqueuedOf : CtrlOp → Option String
  | CtrlOp.enqueue s => some s
  | _ => none

/-- Concatenation of a list of strings in order. -/
def concatStrings (l : List String) : String := l.foldr (fun a b => a ++ b) ""

/-- The full text sent downstream by a run: the concatenation of all enqueued
strings in order. -/
def downstreamText (ops : List CtrlOp) : String := concatStrings (ops.filterMap enqueuedOf)

/-- Whether a controller operation terminates the downstream stream. -/
def isTerminal : CtrlOp → Bool
  | CtrlOp.enqueue _ => false
  | CtrlOp.close => true
  | CtrlOp.error => true

/-- Whether an upstream read succeeded. -/
def readOk : UpstreamRead → Bool
  | Except.ok _ => true
  | Except.error _ => false

/-- One labeled context block, exactly the template literal in `POST`:
`Chunk {rank} [{section} | {id}]:\n{text}`. -/
def contextBlock (rank : ℕ) (c : Row) : String :=
  "Chunk " ++ toString rank ++ " [" ++ c.sectionLabel ++ " | " ++ c.id ++ "]:\n" ++ c.chunk_text

/-- JavaScript `Array.prototype.join(sep)`: empty list gives `""`, otherwise
the elements interleaved with the separator. -/
def joinSep (sep : String) : List String → String
  | [] => ""
  | [x] => x
  | x :: y :: rest => x ++ sep ++ joinSep sep (y :: rest)

/-- The context assembly in `POST`: `chunks.map((chunk, index) => ...)` then
`.join("\n\n")`. -/
def assembleContext (chunks : List Row) : String :=
  joinSep ("\n\n") (chunks.enum.map (fun p => contextBlock (p.1 + 1) p.2))

/-- Modelled from the spec (Context Assembler contract): "for each chunk in
input order, emit a labeled block `Chunk {rank} [{section} | {id}]:\n{text}`,
blocks separated by a blank line", with rank the 1-based input position.
The auxiliary parameter is the rank of the first remaining chunk. -/
def specAssembleFrom : ℕ → List Row → String
  | _, [] => ""
  | rank, [c] => contextBlock rank c
  | rank, c :: c' :: rest => contextBlock rank c ++ "\n\n" ++ specAssembleFrom (rank + 1) (c' :: rest)

/-- Modelled from the spec: the Context Assembler, at starting rank 1. -/
def contextAssemblerSpec (chunks : List Row) : String := specAssembleFrom 1 chunks

/-- Dot product of two rational vectors, truncating at the shorter length. -/
def dotQ : List ℚ → List ℚ → ℚ
  | a :: as, b :: bs => a * b + dotQ as bs
  | _, _ => 0

/-- Cosine distance `1 - dot(a,b) / (‖a‖ ‖b‖)`, the quantity the pgvector
operator `<=>` orders by in `retrieveTopChunks`. -/
noncomputable def cosineDistance (a b : List ℚ) : ℝ :=
  1 - ((dotQ a b : ℚ) : ℝ) /
    (Real.sqrt ((dotQ a a : ℚ) : ℝ) * Real.sqrt ((dotQ b b : ℚ) : ℝ))

/-- Computable ranking key: the signed square of the cosine similarity of `v`
to the query `q`, scaled by the (constant, positive) squared norm of `q`.
Ordering rows by descending `simKey` is the same as ordering them by ascending
cosine distance whenever all norms are nonzero; this is proved below and lets
the `ORDER BY embedding <=> $1::vector` clause be embedded executably. -/
def simKey (q v : List ℚ) : ℚ := dotQ q v * |dotQ q v| / dotQ v v

/-- Row comparison realizing `ORDER BY embedding <=> $1::vector` ascending:
`a` sorts no later than `b` when `a`'s similarity key is at least `b`'s. -/
def rankRel (q : List ℚ) (a b : Row) : Prop :=
  simKey q b.embedding ≤ simKey q a.embedding

instance rankRelDecidable (q : List ℚ) : DecidableRel (rankRel q) :=
  fun a b => inferInstanceAs (Decidable (simKey q b.embedding ≤ simKey q a.embedding))

/-- The retrieval fan-out requested by `POST`: `retrieveTopChunks(client,
message, 6)`. -/
def POST_TOP_K : ℕ := 6

/-- The SQL of `retrieveTopChunks`: all stored rows ordered by ascending
cosine distance to the query vector, truncated by `LIMIT k`. -/
def retrieveTopChunks (store : Store) (q : List ℚ) (k : ℕ) : List Row :=
  (List.insertionSort (rankRel q) store).take k

/-- The seed loop body of `ensureRagTableAndSeed`: issue the keyed upsert for
each seed row in order, with no transactional boundary.  `bad r = true` means
the `INSERT` for row `r` throws.  Returns the visible store when the loop
stops, whether an error was thrown, and how many `INSERT` statements were
issued. -/
def seedLoop (bad : Row → Bool) : List Row → Store → Store × Bool × ℕ
  | [], s => (s, false, 0)
  | r :: rs, s =>
    if bad r then (s, true, 1)
    else
      let res := seedLoop bad rs (upsertRow s r)
      (res.1, res.2.1, res.2.2 + 1)

/-- An external call performed by the request handler, in order. -/
inductive ExtCall where
  | dbConnect
  | dbQuery
  | embedCall (key : Option String) (input : String)
  | chatRun (key : Option String)
  deriving DecidableEq, Repr

/-- The function `ensureRagTableAndSeed`: run the schema statement, conditionally the HNSW
index statement (only when `EMBEDDING_DIM ≤ 2000`), and the count query; when
the table already holds rows, return; otherwise run the untransacted seed
loop.  Returns the visible store, whether an error was thrown, and the trace
of datastore queries issued. -/
def ensureRagTableAndSeed (bad : Row → Bool) (rows : List Row) (s : Store) :
    Store × Bool × List ExtCall :=
  let schemaTrace :=
    if EMBEDDING_DIM ≤ 2000 then [ExtCall.dbQuery, ExtCall.dbQuery, ExtCall.dbQuery]
    else [ExtCall.dbQuery, ExtCall.dbQuery]
  if 0 < s.length then (s, false, schemaTrace)
  else
    let res := seedLoop bad rows s
    (res.1, res.2.1, schemaTrace ++ List.replicate res.2.2 ExtCall.dbQuery)

/-- The script `upsertEmbeddings` (ragPostgres.mjs): the same keyed upsert
loop, but wrapped in `BEGIN` / `COMMIT` with `ROLLBACK` on error, so on
failure the visible store reverts to its prior state.  Returns the visible
store and whether an error was thrown. -/
def upsertEmbeddings (bad : Row → Bool) (rows : List Row) (s : Store) : Store × Bool :=
  let res := seedLoop bad rows s
  if res.2.1 then (s, true) else (res.1, false)

/-- The upstream embedding service response as used by `embedText`: the HTTP
ok flag, the response body text, and the vector at `data.data[0].embedding`. -/
structure EmbedResp where
  ok : Bool
  body : String
  embedding : List ℚ
  deriving DecidableEq, Repr

/-- The function `embedText`: on a non-ok response, throw the response body; otherwise
return `data.data[0].embedding` as-is. -/
def embedText (resp : EmbedResp) : Except String (List ℚ) :=
  if resp.ok then Except.ok resp.embedding else Except.error resp.body

/-- The request body as seen by `POST`: either `request.json()` throws
(`malformed`, carrying the parse error message); or it yields the JSON root
`null`, on which the destructuring `const { message } = ...` itself throws a
TypeError (`nullRoot`, carrying that error message, caught by the outer
`catch` like a parse failure); or it yields any other JSON root, whose
destructuring produces a `message` value that is a string, a non-string
value, or absent (non-object roots other than `null` destructure to an
absent `message`). -/
inductive ReqBody where
  | malformed (msg : String)
  | nullRoot (msg : String)
  | parsed (message : Option JVal)
  deriving DecidableEq, Repr

/-- Whether the body parses but fails the `!message || typeof message !==
"string"` validation: a missing `message`, a non-string `message`, or the
empty string. -/
def messageInvalid : ReqBody → Bool
  | ReqBody.parsed (some (JVal.str s)) => s == ""
  | ReqBody.parsed _ => true
  | ReqBody.malformed _ => false
  | ReqBody.nullRoot _ => false

/-- The environment variables the handler reads; `none` is an unset
variable, `some s` a set one — possibly set to the empty string, which
JavaScript treats as falsy. -/
structure Env where
  gemini : Option String
  openai : Option String
  databaseUrl : Option String
  deriving DecidableEq, Repr

/-- JavaScript truthiness of an optional string value: `undefined` and the
empty string are falsy, every other string truthy. -/
def truthy : Option String → Bool
  | none => false
  | some s => !(s == "")

/-- JavaScript `a || b` on optional strings: `a` when truthy, otherwise `b`
(whatever it is, including a falsy value). -/
def jsOr (a b : Option String) : Option String := if truthy a then a else b

/-- The constant `EMBEDDING_API_KEY = process.env.GEMINI_API_KEY ||
process.env.OPENAI_API_KEY`, with JS `||` semantics (an empty-string
variable is falsy and skipped). -/
def embeddingApiKey (e : Env) : Option String := jsOr e.gemini e.openai

/-- The constant `CHAT_API_KEY = process.env.OPENAI_API_KEY ||
process.env.GEMINI_API_KEY`, with the same JS `||` semantics. -/
def chatApiKey (e : Env) : Option String := jsOr e.openai e.gemini

/-- The HTTP outcome of `POST`: a JSON error response with a status, or the
streaming success response carrying the assembled context and the retrieved
chunks. -/
inductive PostOutcome where
  | jsonError (status : ℕ) (msg : String)
  | stream (context : String) (chunks : List Row)
  deriving DecidableEq, Repr

/-- The connectivity diagnostic returned when `dbPool.connect()` fails. -/
def connectFailMsg : String :=
  "Database connection failed. Check DATABASE_URL (URL-encode special characters in password, e.g. @ as %40)."

/-- The validation error body. -/
def invalidBodyMsg : String := "Invalid request body: message is required"

/-- The response body when `EMBEDDING_API_KEY` is unset. -/
def missingGeminiMsg : String := "Missing Gemini API key"

/-- The response body when `CHAT_API_KEY` is unset. -/
def missingOpenAIMsg : String := "Missing OpenAI API key"

/-- The response body when `DATABASE_URL` is unset. -/
def missingDbUrlMsg : String := "Missing DATABASE_URL"

/-- Whether an HTTP status is a client error. -/
def isClientError (status : ℕ) : Prop := 400 ≤ status ∧ status < 500

/-- The `POST` handler as a function of: the environment, whether
`dbPool.connect()` succeeds, the parsed request body, the upstream embedding
response, the seed-insert failure oracle, the seed file rows, the stored
rows, and the datastore driver's error text `seedErrMsg` echoed by the outer
`catch` when a seed `INSERT` throws.  Returns the HTTP outcome and the
ordered trace of external calls, mirroring the source's control flow: the
credential and pool checks (`!EMBEDDING_API_KEY`, `!CHAT_API_KEY`,
`!DATABASE_URL` — JS falsiness, so an empty-string variable counts as
missing), connect, body parse and destructuring (a parse failure or a `null`
root throws and is caught by the outer `catch` as a 500 echoing the error
message), validation (400), `ensureRagTableAndSeed` (a failing insert
likewise surfaces as a 500 echoing the driver's message), then
`retrieveTopChunks` (which first calls `embedText`), context assembly, and
the streaming response. -/
def postHandler (env : Env) (connectOk : Bool) (body : ReqBody) (resp : EmbedResp)
    (bad : Row → Bool) (seedRows : List Row) (store : Store) (seedErrMsg : String) :
    PostOutcome × List ExtCall :=
  if truthy (embeddingApiKey env) = false then (PostOutcome.jsonError 500 missingGeminiMsg, [])
  else if truthy (chatApiKey env) = false then (PostOutcome.jsonError 500 missingOpenAIMsg, [])
  else if truthy env.databaseUrl = false then (PostOutcome.jsonError 500 missingDbUrlMsg, [])
  else if connectOk = false then (PostOutcome.jsonError 500 connectFailMsg, [ExtCall.dbConnect])
  else
    match body with
    | ReqBody.malformed m => (PostOutcome.jsonError 500 m, [ExtCall.dbConnect])
    | ReqBody.nullRoot m => (PostOutcome.jsonError 500 m, [ExtCall.dbConnect])
    | ReqBody.parsed mv =>
      match mv with
      | some (JVal.str s) =>
        if s == "" then (PostOutcome.jsonError 400 invalidBodyMsg, [ExtCall.dbConnect])
        else if (ensureRagTableAndSeed bad seedRows store).2.1 then
          (PostOutcome.jsonError 500 seedErrMsg,
            ExtCall.dbConnect :: (ensureRagTableAndSeed bad seedRows store).2.2)
        else
          match embedText resp with
          | Except.error m =>
            (PostOutcome.jsonError 500 m,
              ExtCall.dbConnect :: (ensureRagTableAndSeed bad seedRows store).2.2
                ++ [ExtCall.embedCall (embeddingApiKey env) s])
          | Except.ok qv =>
            (PostOutcome.stream
              (assembleContext
                (retrieveTopChunks (ensureRagTableAndSeed bad seedRows store).1 qv POST_TOP_K))
              (retrieveTopChunks (ensureRagTableAndSeed bad seedRows store).1 qv POST_TOP_K),
              ExtCall.dbConnect :: (ensureRagTableAndSeed bad seedRows store).2.2
                ++ [ExtCall.embedCall (embeddingApiKey env) s]
                ++ [ExtCall.dbQuery, ExtCall.chatRun (chatApiKey env)])
      | _ => (PostOutcome.jsonError 400 invalidBodyMsg, [ExtCall.dbConnect])


/-- Concrete seed rows used to exhibit the missing transactional boundary. -/
def seedRowA : Row := ⟨"a", "sec", "ta", []⟩

/-- Second concrete seed row; its insert is made to fail below. -/
def seedRowB : Row := ⟨"b", "sec", "tb", []⟩

/-- Failure oracle making exactly the insert of `seedRowB` throw. -/
def failOnB : Row → Bool := fun r => r.id == "b"

instance rankRelTotal (q : List ℚ) : IsTotal Row (rankRel q) :=
  ⟨fun a b => le_total (simKey q b.embedding) (simKey q a.embedding)⟩

instance rankRelTrans (q : List ℚ) : IsTrans Row (rankRel q) :=
  ⟨fun _ _ _ hab hbc => le_trans hbc hab⟩

/-!
Helper lemmas, followed by one theorem per claim (with counterexamples and
witnesses where applicable).
-/

theorem concatStrings_nil : concatStrings [] = "" := rfl

theorem concatStrings_cons (s : String) (l : List String) :
    concatStrings (s :: l) = s ++ concatStrings l := rfl

theorem concatStrings_append (l₁ l₂ : List String) :
    concatStrings (l₁ ++ l₂) = concatStrings l₁ ++ concatStrings l₂ := by
  induction l₁ with
  | nil => simp [concatStrings_nil, concatStrings_cons]
  | cons x xs ih => simp [concatStrings_cons, ih, String.append_assoc]

theorem downstreamText_append (l₁ l₂ : List CtrlOp) :
    downstreamText (l₁ ++ l₂) = downstreamText l₁ ++ downstreamText l₂ := by
  simp [downstreamText, List.filterMap_append, concatStrings_append]

theorem downstreamText_single (s : String) : downstreamText [CtrlOp.enqueue s] = s := by
  simp [downstreamText, enqueuedOf, concatStrings_cons, concatStrings_nil]

theorem string_eq_empty_of_length_eq_zero {s : String} (h : s.length = 0) : s = "" := by
  have hd : s.data = [] := List.length_eq_zero.mp h
  cases s
  simp_all

/-- Claim C1: for every upstream event sequence consumed by the streaming
relay, the concatenation of all text enqueued downstream equals the
concatenation, in emission order, of the deltas carried by well-formed
`output_text_delta` events; events of any other type, or with a malformed or
missing delta field, contribute zero characters. -/
theorem relay_concat_eq_wellFormed_deltas (events : List SEvent) :
    downstreamText (relayRun (events.map Except.ok)) =
      concatStrings (events.filterMap wellFormedDelta) := by
  induction events with
  | nil => rfl
  | cons e rest ih =>
    simp only [List.map_cons, relayRun, downstreamText_append, List.filterMap_cons]
    by_cases hc : e.type = "raw_model_stream_event" ∧ e.dataType = some ("output_text_delta")
    · match hd : e.delta with
      | some (JVal.str s) =>
        by_cases hl : 0 < s.length
        · simp only [emittedDelta, wellFormedDelta, if_pos hc, hd, if_pos hl]
          rw [downstreamText_single, concatStrings_cons, ih]
        · have hs : s = "" := string_eq_empty_of_length_eq_zero (Nat.eq_zero_of_not_pos hl)
          simp only [emittedDelta, wellFormedDelta, if_pos hc, hd, if_neg hl]
          simp only [concatStrings_cons, hs, ih]
          simp [downstreamText, concatStrings_nil]
      | some JVal.nonStr =>
        simp only [emittedDelta, wellFormedDelta, if_pos hc, hd]
        simpa using ih
      | none =>
        simp only [emittedDelta, wellFormedDelta, if_pos hc, hd]
        simpa using ih
    · simp only [emittedDelta, wellFormedDelta, if_neg hc]
      simpa using ih

/-- Claim C5: every run of the relay body performs exactly one terminal
controller operation — `close` exactly when every upstream read succeeds
(normal completion), `error` exactly when some read throws — never both and
never neither. -/
theorem relay_closes_exactly_once (upstream : List UpstreamRead) :
    (relayRun upstream).countP isTerminal = 1
    ∧ (CtrlOp.close ∈ relayRun upstream ↔ ∀ x ∈ upstream, readOk x = true)
    ∧ (CtrlOp.error ∈ relayRun upstream ↔ ¬ ∀ x ∈ upstream, readOk x = true) := by
  induction upstream with
  | nil =>
    refine ⟨by decide, ?_, ?_⟩ <;> simp [relayRun]
  | cons x rest ih =>
    match x with
    | Except.error m =>
      refine ⟨by simp [relayRun, List.countP_cons, isTerminal], ?_, ?_⟩ <;>
        simp [relayRun, readOk]
    | Except.ok e =>
      obtain ⟨ihc, ihclose, iherr⟩ := ih
      rcases hd : emittedDelta e with _ | s <;>
        refine ⟨?_, ?_, ?_⟩ <;>
        simp [relayRun, hd, List.countP_append, List.countP_cons, isTerminal, List.mem_append,
          readOk, ihc, ihclose, iherr]


/-- Relates the indexed-map-then-join of the source to the rank-recursive
formatting of the spec. -/
theorem joinSep_map_enumFrom (chunks : List Row) :
    ∀ n : ℕ,
      joinSep ("\n\n") ((List.enumFrom n chunks).map (fun p => contextBlock (p.1 + 1) p.2)) =
        specAssembleFrom (n + 1) chunks := by
  induction chunks with
  | nil => intro n; rfl
  | cons c rest ih =>
    intro n
    cases rest with
    | nil => rfl
    | cons c' rest' =>
      have := ih (n + 1)
      simp only [List.enumFrom_cons, List.map_cons] at this ⊢
      rw [joinSep, specAssembleFrom, ← this]

/-- Claim C6: the context assembly of `POST` produces, for each chunk in
input order, the block `Chunk {rank} [{section} | {id}]:\n{text}` with
1-based ranks, blocks joined by exactly one blank line — the rank-recursive
formatting written from the spec.  Input order is preserved and every field
appears verbatim, since the two sides agree syntactically. -/
theorem assembleContext_eq_spec (chunks : List Row) :
    assembleContext chunks = contextAssemblerSpec chunks := by
  unfold assembleContext contextAssemblerSpec
  rw [List.enum_eq_enumFrom]
  exact joinSep_map_enumFrom chunks 0

/-- Claim C7: on a store already holding at least one passage,
`ensureRagTableAndSeed` runs only the schema and count statements — it
neither inserts nor modifies any row, and the stored passages are returned
unchanged. -/
theorem seed_noop_on_nonempty_store (bad : Row → Bool) (rows : List Row) (s : Store)
    (h : s ≠ []) :
    ensureRagTableAndSeed bad rows s = (s, false, [ExtCall.dbQuery, ExtCall.dbQuery]) := by
  have h1 : ¬ (EMBEDDING_DIM ≤ 2000) := by decide
  have h2 : 0 < s.length := List.length_pos.mpr h
  simp [ensureRagTableAndSeed, h1, h2]

theorem seed_noop_witness :
    ([(⟨"a", "sec", "ta", []⟩ : Row)] : Store) ≠ []
    ∧ ensureRagTableAndSeed (fun _ => false) [] [⟨"a", "sec", "ta", []⟩]
        = ([⟨"a", "sec", "ta", []⟩], false, [ExtCall.dbQuery, ExtCall.dbQuery]) :=
  ⟨by decide, seed_noop_on_nonempty_store (fun _ => false) [] [⟨"a", "sec", "ta", []⟩] (by decide)⟩

/-- Claim C8: the keyed insert-or-update is idempotent — upserting the same
row twice leaves the store in the same observable state as upserting it
once. -/
theorem upsertRow_idempotent (s : Store) (r : Row) :
    upsertRow (upsertRow s r) r = upsertRow s r := by
  unfold upsertRow
  by_cases h : s.any (fun x => x.id == r.id)
  · rw [if_pos h]
    have hff : ∀ x : Row,
        (if x.id == r.id then r else x).id == r.id →
          (if (if x.id == r.id then r else x).id == r.id then r
            else if x.id == r.id then r else x) = (if x.id == r.id then r else x) := by
      intro x _
      by_cases hx : x.id == r.id <;> simp [hx]
    have hany : (s.map (fun x => if x.id == r.id then r else x)).any (fun x => x.id == r.id)
        = true := by
      rw [List.any_map]
      obtain ⟨x, hxmem, hx⟩ := List.any_eq_true.mp h
      exact List.any_eq_true.mpr ⟨x, hxmem, by simp [Function.comp, hx]⟩
    rw [if_pos hany, List.map_map]
    refine List.map_congr_left ?_
    intro x _
    by_cases hx : x.id == r.id <;> simp [Function.comp, hx]
  · rw [if_neg h]
    have hany : (s ++ [r]).any (fun x => x.id == r.id) = true := by
      simp [List.any_append]
    have hall : ∀ x ∈ s, ¬ (x.id == r.id) = true :=
      List.any_eq_false.mp (Bool.eq_false_iff.mpr h)
    have hs : s.map (fun x => if x.id == r.id then r else x) = s := by
      calc s.map (fun x => if x.id == r.id then r else x) = s.map id :=
            List.map_congr_left (fun x hx => by rw [if_neg (hall x hx)]; rfl)
        _ = s := List.map_id s
    rw [if_pos hany, List.map_append, hs]
    simp

/-- Claim C3 is false as stated: run the seed loop of `ensureRagTableAndSeed`
on an empty store with a two-row batch whose second insert fails.  The run
errors, yet the first row of the batch remains visible afterwards. -/
theorem seed_loop_not_atomic_counterexample :
    (ensureRagTableAndSeed failOnB [seedRowA, seedRowB] []).2.1 = true
    ∧ (ensureRagTableAndSeed failOnB [seedRowA, seedRowB] []).1 = [seedRowA]
    ∧ seedRowA ∈ (ensureRagTableAndSeed failOnB [seedRowA, seedRowB] []).1 := by
  refine ⟨by decide, by decide, by decide⟩

theorem seedLoop_of_no_failure (bad : Row → Bool) :
    ∀ (rows : List Row) (s : Store), (seedLoop bad rows s).2.1 = false →
      (seedLoop bad rows s).1 = List.foldl upsertRow s rows := by
  intro rows
  induction rows with
  | nil => intro s _; rfl
  | cons r rs ih =>
    intro s hok
    by_cases hb : bad r
    · simp [seedLoop, hb] at hok
    · simp only [seedLoop, hb, if_neg, Bool.false_eq_true, if_false] at hok ⊢
      simpa [List.foldl_cons] using ih (upsertRow s r) hok

/-- Claim C3, amended: the transactional script path `upsertEmbeddings` is
atomic — on a failed batch the visible store is exactly the prior store, and
on success it is the whole batch folded in — while `ensureRagTableAndSeed`'s
seed loop is not (see the counterexample). -/
theorem upsertEmbeddings_atomic (bad : Row → Bool) (rows : List Row) (s : Store) :
    ((upsertEmbeddings bad rows s).2 = true → (upsertEmbeddings bad rows s).1 = s)
    ∧ ((upsertEmbeddings bad rows s).2 = false →
        (upsertEmbeddings bad rows s).1 = List.foldl upsertRow s rows) := by
  unfold upsertEmbeddings
  by_cases hf : (seedLoop bad rows s).2.1
  · simp [hf]
  · simp only [Bool.not_eq_true] at hf
    simp [hf, seedLoop_of_no_failure bad rows s hf]

theorem upsertEmbeddings_atomic_witness :
    (upsertEmbeddings failOnB [seedRowA, seedRowB] []).2 = true
    ∧ (upsertEmbeddings failOnB [seedRowA, seedRowB] []).1 = [] :=
  ⟨by decide, (upsertEmbeddings_atomic failOnB [seedRowA, seedRowB] []).1 (by decide)⟩

/-- Claim C4 is false as stated: an ok upstream response carrying a
two-element vector is returned unchanged by `embedText`, although its length
differs from `EMBEDDING_DIM`; no configuration error is surfaced. -/
theorem embedText_no_dimension_check_counterexample :
    embedText ⟨true, "", [1, 2]⟩ = Except.ok [1, 2]
    ∧ (([1, 2] : List ℚ).length = EMBEDDING_DIM → False) := by
  exact ⟨rfl, by intro hc; simp [EMBEDDING_DIM] at hc⟩

/-- Claim C4, amended: `embedText` throws the upstream body exactly when the
response is non-ok, and otherwise returns `data.data[0].embedding` verbatim,
performing no dimension validation whatsoever. -/
theorem embedText_passthrough (resp : EmbedResp) :
    (resp.ok = true → embedText resp = Except.ok resp.embedding)
    ∧ (resp.ok = false → embedText resp = Except.error resp.body) := by
  constructor <;> intro h <;> simp [embedText, h]

theorem embedText_passthrough_witness :
    (⟨true, "x", []⟩ : EmbedResp).ok = true
    ∧ embedText ⟨true, "x", []⟩ = Except.ok [] :=
  ⟨rfl, (embedText_passthrough ⟨true, "x", []⟩).1 rfl⟩

/-- The map sending a real to its signed square is strictly monotone. -/
theorem mulAbs_strictMono : StrictMono (fun x : ℝ => x * |x|) := by
  intro x y hxy
  rcases le_or_lt 0 x with hx | hx
  · have hy : 0 ≤ y := hx.trans hxy.le
    simp only [abs_of_nonneg hx, abs_of_nonneg hy]
    exact mul_self_lt_mul_self hx hxy
  · rcases le_or_lt 0 y with hy | hy
    · have h1 : x * |x| < 0 := by rw [abs_of_neg hx]; nlinarith
      have h2 : 0 ≤ y * |y| := by rw [abs_of_nonneg hy]; positivity
      show x * |x| < y * |y|
      linarith
    · simp only [abs_of_neg hx, abs_of_neg hy]
      nlinarith

theorem mulAbs_le_mulAbs_iff (x y : ℝ) : x * |x| ≤ y * |y| ↔ x ≤ y :=
  mulAbs_strictMono.le_iff_le

/-- The signed square of a quotient by a square root. -/
theorem div_sqrt_mulAbs {t A : ℝ} (hA : 0 < A) :
    (t / Real.sqrt A) * |t / Real.sqrt A| = t * |t| / A := by
  have hs : 0 < Real.sqrt A := Real.sqrt_pos.mpr hA
  rw [abs_div, abs_of_nonneg (Real.sqrt_nonneg A), div_mul_div_comm,
    Real.mul_self_sqrt hA.le]

/-- Ordering rows by descending `simKey` coincides with ordering them by
ascending cosine distance, whenever the query and both vectors have positive
squared norm. -/
theorem simKey_le_simKey_iff (q a b : List ℚ) (hq : 0 < dotQ q q)
    (ha : 0 < dotQ a a) (hb : 0 < dotQ b b) :
    (simKey q b ≤ simKey q a ↔ cosineDistance q a ≤ cosineDistance q b) := by
  have hqR : (0:ℝ) < ((dotQ q q : ℚ) : ℝ) := by exact_mod_cast hq
  have haR : (0:ℝ) < ((dotQ a a : ℚ) : ℝ) := by exact_mod_cast ha
  have hbR : (0:ℝ) < ((dotQ b b : ℚ) : ℝ) := by exact_mod_cast hb
  have hsq : 0 < Real.sqrt ((dotQ q q : ℚ) : ℝ) := Real.sqrt_pos.mpr hqR
  have hsa : 0 < Real.sqrt ((dotQ a a : ℚ) : ℝ) := Real.sqrt_pos.mpr haR
  have hsb : 0 < Real.sqrt ((dotQ b b : ℚ) : ℝ) := Real.sqrt_pos.mpr hbR
  have hcast : ∀ v : List ℚ, ((simKey q v : ℚ) : ℝ) =
      ((dotQ q v : ℚ) : ℝ) * |((dotQ q v : ℚ) : ℝ)| / ((dotQ v v : ℚ) : ℝ) := by
    intro v
    simp [simKey, Rat.cast_abs]
  constructor
  · intro h
    unfold cosineDistance
    rw [sub_le_sub_iff_left]
    have h1 : ((simKey q b : ℚ) : ℝ) ≤ ((simKey q a : ℚ) : ℝ) := by exact_mod_cast h
    rw [hcast, hcast, ← div_sqrt_mulAbs haR, ← div_sqrt_mulAbs hbR,
      mulAbs_le_mulAbs_iff] at h1
    calc ((dotQ q b : ℚ) : ℝ) / (Real.sqrt ((dotQ q q : ℚ) : ℝ) * Real.sqrt ((dotQ b b : ℚ) : ℝ))
        = (((dotQ q b : ℚ) : ℝ) / Real.sqrt ((dotQ b b : ℚ) : ℝ)) / Real.sqrt ((dotQ q q : ℚ) : ℝ) := by
          rw [div_div, mul_comm]
      _ ≤ (((dotQ q a : ℚ) : ℝ) / Real.sqrt ((dotQ a a : ℚ) : ℝ)) / Real.sqrt ((dotQ q q : ℚ) : ℝ) := by
          exact (div_le_div_iff_of_pos_right hsq).mpr h1
      _ = ((dotQ q a : ℚ) : ℝ) / (Real.sqrt ((dotQ q q : ℚ) : ℝ) * Real.sqrt ((dotQ a a : ℚ) : ℝ)) := by
          rw [div_div, mul_comm]
  · intro h
    unfold cosineDistance at h
    rw [sub_le_sub_iff_left] at h
    have h1 : (((dotQ q b : ℚ) : ℝ) / Real.sqrt ((dotQ b b : ℚ) : ℝ))
        ≤ (((dotQ q a : ℚ) : ℝ) / Real.sqrt ((dotQ a a : ℚ) : ℝ)) := by
      have h2 : (((dotQ q b : ℚ) : ℝ) / Real.sqrt ((dotQ b b : ℚ) : ℝ)) / Real.sqrt ((dotQ q q : ℚ) : ℝ)
          ≤ (((dotQ q a : ℚ) : ℝ) / Real.sqrt ((dotQ a a : ℚ) : ℝ)) / Real.sqrt ((dotQ q q : ℚ) : ℝ) := by
        calc (((dotQ q b : ℚ) : ℝ) / Real.sqrt ((dotQ b b : ℚ) : ℝ)) / Real.sqrt ((dotQ q q : ℚ) : ℝ)
            = ((dotQ q b : ℚ) : ℝ) / (Real.sqrt ((dotQ q q : ℚ) : ℝ) * Real.sqrt ((dotQ b b : ℚ) : ℝ)) := by
              rw [div_div, mul_comm]
          _ ≤ ((dotQ q a : ℚ) : ℝ) / (Real.sqrt ((dotQ q q : ℚ) : ℝ) * Real.sqrt ((dotQ a a : ℚ) : ℝ)) := h
          _ = (((dotQ q a : ℚ) : ℝ) / Real.sqrt ((dotQ a a : ℚ) : ℝ)) / Real.sqrt ((dotQ q q : ℚ) : ℝ) := by
              rw [div_div, mul_comm]
      exact (div_le_div_iff_of_pos_right hsq).mp h2
    have h3 : ((simKey q b : ℚ) : ℝ) ≤ ((simKey q a : ℚ) : ℝ) := by
      rw [hcast, hcast, ← div_sqrt_mulAbs haR, ← div_sqrt_mulAbs hbR, mulAbs_le_mulAbs_iff]
      exact h1
    exact_mod_cast h3

theorem postHandler_stream_inversion (env : Env) (cOk : Bool) (body : ReqBody)
    (resp : EmbedResp) (bad : Row → Bool) (rows : List Row) (st : Store)
    (seedErrMsg : String) (ctx : String) (chunks : List Row)
    (h : (postHandler env cOk body resp bad rows st seedErrMsg).1 = PostOutcome.stream ctx chunks) :
    chunks = retrieveTopChunks (ensureRagTableAndSeed bad rows st).1 resp.embedding POST_TOP_K := by
  unfold postHandler at h
  by_cases h1 : truthy (embeddingApiKey env) = false
  · rw [if_pos h1] at h; simp at h
  rw [if_neg h1] at h
  by_cases h2 : truthy (chatApiKey env) = false
  · rw [if_pos h2] at h; simp at h
  rw [if_neg h2] at h
  by_cases h3 : truthy env.databaseUrl = false
  · rw [if_pos h3] at h; simp at h
  rw [if_neg h3] at h
  by_cases h4 : cOk = false
  · rw [if_pos h4] at h; simp at h
  rw [if_neg h4] at h
  cases body with
  | malformed m => simp at h
  | nullRoot m => simp at h
  | parsed mv =>
    match mv with
    | none => simp at h
    | some JVal.nonStr => simp at h
    | some (JVal.str s) =>
      simp only at h
      by_cases h5 : s == ""
      · rw [if_pos h5] at h; simp at h
      rw [if_neg h5] at h
      by_cases h6 : (ensureRagTableAndSeed bad rows st).2.1 = true
      · rw [if_pos h6] at h; simp at h
      rw [if_neg h6] at h
      rcases he : embedText resp with m | qv
      · rw [he] at h; simp at h
      · rw [he] at h
        simp only [PostOutcome.stream.injEq] at h
        unfold embedText at he
        by_cases hok : resp.ok
        · rw [if_pos hok] at he
          cases he
          exact h.2.symm
        · rw [if_neg hok] at he
          cases he


/-- Claim C2: `retrieveTopChunks` returns the stored rows sorted by
non-decreasing cosine distance to the query vector (under the nondegeneracy
hypotheses that the query and all stored embeddings have positive squared
norm), its length is `min k (store size)` (hence at most `k`), and every
streamed `POST` response carries exactly the chunks of
`retrieveTopChunks` at fan-out 6. -/
theorem retrieveTopChunks_sorted_and_bounded (store : Store) (q : List ℚ) (k : ℕ)
    (hq : 0 < dotQ q q) (hs : ∀ r ∈ store, 0 < dotQ r.embedding r.embedding) :
    List.Sorted (fun a b : Row =>
        cosineDistance q a.embedding ≤ cosineDistance q b.embedding)
      (retrieveTopChunks store q k)
    ∧ (retrieveTopChunks store q k).length = min k store.length
    ∧ ∀ (env : Env) (cOk : Bool) (body : ReqBody) (resp : EmbedResp) (bad : Row → Bool)
        (rows : List Row) (st : Store) (seedErrMsg : String) (ctx : String) (chunks : List Row),
        (postHandler env cOk body resp bad rows st seedErrMsg).1 = PostOutcome.stream ctx chunks →
        chunks = retrieveTopChunks (ensureRagTableAndSeed bad rows st).1 resp.embedding 6 := by
  refine ⟨?_, ?_, ?_⟩
  · have hsorted : List.Pairwise (rankRel q) (List.insertionSort (rankRel q) store) :=
      List.sorted_insertionSort (rankRel q) store
    have htake : List.Pairwise (rankRel q) (retrieveTopChunks store q k) :=
      List.Pairwise.sublist (List.take_sublist k _) hsorted
    refine List.Pairwise.imp_of_mem ?_ htake
    intro a b hma hmb hr
    have hma' : a ∈ store :=
      (List.perm_insertionSort (rankRel q) store).subset (List.take_subset k _ hma)
    have hmb' : b ∈ store :=
      (List.perm_insertionSort (rankRel q) store).subset (List.take_subset k _ hmb)
    exact (simKey_le_simKey_iff q a.embedding b.embedding hq (hs a hma') (hs b hmb')).mp hr
  · simp [retrieveTopChunks, List.length_take, List.length_insertionSort]
  · intro env cOk body resp bad rows st seedErrMsg ctx chunks h
    exact postHandler_stream_inversion env cOk body resp bad rows st seedErrMsg ctx chunks h

theorem retrieveTopChunks_sorted_witness :
    0 < dotQ [1, 0] [1, 0]
    ∧ List.Sorted (fun a b : Row =>
          cosineDistance [1, 0] a.embedding ≤ cosineDistance [1, 0] b.embedding)
        (retrieveTopChunks [⟨"y", "s", "ty", [0, 1]⟩, ⟨"x", "s", "tx", [1, 0]⟩] [1, 0] 2)
    ∧ (retrieveTopChunks [⟨"y", "s", "ty", [0, 1]⟩, ⟨"x", "s", "tx", [1, 0]⟩] [1, 0] 2).length
        = min 2 ([⟨"y", "s", "ty", [0, 1]⟩, ⟨"x", "s", "tx", [1, 0]⟩] : Store).length :=
  ⟨by simp [dotQ],
    (retrieveTopChunks_sorted_and_bounded [⟨"y", "s", "ty", [0, 1]⟩, ⟨"x", "s", "tx", [1, 0]⟩]
      [1, 0] 2 (by simp [dotQ])
      (by
        intro r hr
        simp only [List.mem_cons, List.not_mem_nil, or_false] at hr
        rcases hr with rfl | rfl <;> simp [dotQ])).1,
    (retrieveTopChunks_sorted_and_bounded [⟨"y", "s", "ty", [0, 1]⟩, ⟨"x", "s", "tx", [1, 0]⟩]
      [1, 0] 2 (by simp [dotQ])
      (by
        intro r hr
        simp only [List.mem_cons, List.not_mem_nil, or_false] at hr
        rcases hr with rfl | rfl <;> simp [dotQ])).2.1⟩

/-- Claim C9 is false as stated: a request body that is not well-formed JSON
makes `request.json()` throw inside the outer `try`, so the handler answers
with the server-error status 500, not a client-error status. -/
theorem malformed_body_not_client_error :
    (postHandler ⟨some ("g"), some ("o"), some ("db")⟩ true (ReqBody.malformed ("Unexpected token"))
        ⟨true, "", []⟩ (fun _ => false) [] [] "e").1
      = PostOutcome.jsonError 500 "Unexpected token"
    ∧ ¬ isClientError 500 :=
  ⟨by decide, fun hc => Nat.lt_irrefl 500 hc.2⟩

/-- Claim C9, amended: when the credentials, the datastore address and the
connection are all in place, a body whose JSON root destructures to no
non-empty string under `message` (missing key, non-string value, empty
string, or a non-object root other than `null`) gets the 400 JSON validation
error; a body that is not well-formed JSON, and likewise the body whose JSON
root is `null` (whose destructuring at `const { message } = ...` throws),
get a 500 JSON error echoing the thrown message via the outer `catch`.  In
all these cases the trace holds the connection acquisition only — no
embedding call and no datastore query. -/
theorem invalid_message_rejected_before_any_query (env : Env) (cOk : Bool) (body : ReqBody)
    (resp : EmbedResp) (bad : Row → Bool) (rows : List Row) (store : Store)
    (seedErrMsg : String)
    (hek : truthy (embeddingApiKey env) = true) (hck : truthy (chatApiKey env) = true)
    (hdb : truthy env.databaseUrl = true) (hconn : cOk = true) :
    (messageInvalid body = true →
      postHandler env cOk body resp bad rows store seedErrMsg
        = (PostOutcome.jsonError 400 invalidBodyMsg, [ExtCall.dbConnect]))
    ∧ (∀ m, body = ReqBody.malformed m →
      postHandler env cOk body resp bad rows store seedErrMsg
        = (PostOutcome.jsonError 500 m, [ExtCall.dbConnect]))
    ∧ (∀ m, body = ReqBody.nullRoot m →
      postHandler env cOk body resp bad rows store seedErrMsg
        = (PostOutcome.jsonError 500 m, [ExtCall.dbConnect]))
    ∧ (∀ kk ii, ExtCall.embedCall kk ii ∉ ([ExtCall.dbConnect] : List ExtCall))
    ∧ ExtCall.dbQuery ∉ ([ExtCall.dbConnect] : List ExtCall) := by
  subst hconn
  have hek' : ¬ truthy (embeddingApiKey env) = false := by simp [hek]
  have hck' : ¬ truthy (chatApiKey env) = false := by simp [hck]
  have hdb' : ¬ truthy env.databaseUrl = false := by simp [hdb]
  refine ⟨?_, ?_, ?_, by simp, by simp⟩
  · intro hinv
    unfold postHandler
    rw [if_neg hek', if_neg hck', if_neg hdb']
    cases body with
    | malformed m => simp [messageInvalid] at hinv
    | nullRoot m => simp [messageInvalid] at hinv
    | parsed mv =>
      match mv with
      | none => simp
      | some JVal.nonStr => simp
      | some (JVal.str s) =>
        have hs : (s == "") = true := by simpa [messageInvalid] using hinv
        simp [hs]
  · intro m hm
    subst hm
    unfold postHandler
    rw [if_neg hek', if_neg hck', if_neg hdb']
    simp
  · intro m hm
    subst hm
    unfold postHandler
    rw [if_neg hek', if_neg hck', if_neg hdb']
    simp

theorem invalid_message_rejected_witness :
    messageInvalid (ReqBody.parsed (some (JVal.str ("")))) = true
    ∧ postHandler ⟨some ("g"), some ("o"), some ("db")⟩ true (ReqBody.parsed (some (JVal.str (""))))
        ⟨true, "", []⟩ (fun _ => false) [] [] "e"
      = (PostOutcome.jsonError 400 invalidBodyMsg, [ExtCall.dbConnect]) :=
  ⟨by decide,
    (invalid_message_rejected_before_any_query ⟨some ("g"), some ("o"), some ("db")⟩ true
      (ReqBody.parsed (some (JVal.str ("")))) ⟨true, "", []⟩ (fun _ => false) [] [] "e"
      (by decide) (by decide) (by decide) rfl).1 (by decide)⟩

theorem truthy_embeddingApiKey_false_iff (env : Env) :
    truthy (embeddingApiKey env) = false ↔
      truthy env.gemini = false ∧ truthy env.openai = false := by
  unfold embeddingApiKey jsOr
  by_cases hg : truthy env.gemini <;> simp [hg]

theorem ensure_trace_all_dbQuery (bad : Row → Bool) (rows : List Row) (s : Store) :
    ∀ c ∈ (ensureRagTableAndSeed bad rows s).2.2, c = ExtCall.dbQuery := by
  intro c hc
  have hdim : ¬ (EMBEDDING_DIM ≤ 2000) := by decide
  by_cases hlen : 0 < s.length
  · simp only [ensureRagTableAndSeed, if_neg hdim, if_pos hlen, List.mem_cons,
      List.not_mem_nil, or_false] at hc
    rcases hc with hc | hc <;> exact hc
  · simp only [ensureRagTableAndSeed, if_neg hdim, if_neg hlen, List.mem_append,
      List.mem_cons, List.not_mem_nil, or_false] at hc
    rcases hc with (hc | hc) | hc
    · exact hc
    · exact hc
    · exact List.eq_of_mem_replicate hc

theorem mem_trace_cases {x : ExtCall} {tr rest : List ExtCall}
    (htr : ∀ c ∈ tr, c = ExtCall.dbQuery)
    (hm : x ∈ ExtCall.dbConnect :: (tr ++ rest)) :
    x = ExtCall.dbConnect ∨ x = ExtCall.dbQuery ∨ x ∈ rest := by
  rcases List.mem_cons.mp hm with h | h
  · exact Or.inl h
  · rcases List.mem_append.mp h with h | h
    · exact Or.inr (Or.inl (htr x h))
    · exact Or.inr (Or.inr h)

theorem postHandler_call_keys (env : Env) (cOk : Bool) (body : ReqBody) (resp : EmbedResp)
    (bad : Row → Bool) (rows : List Row) (store : Store) (seedErrMsg : String) :
    (∀ c s, ExtCall.embedCall c s ∈ (postHandler env cOk body resp bad rows store seedErrMsg).2 →
      c = embeddingApiKey env)
    ∧ (∀ c, ExtCall.chatRun c ∈ (postHandler env cOk body resp bad rows store seedErrMsg).2 →
      c = chatApiKey env) := by
  have htr := ensure_trace_all_dbQuery bad rows store
  unfold postHandler
  by_cases h1 : truthy (embeddingApiKey env) = false
  · rw [if_pos h1]
    refine ⟨fun c s hm => ?_, fun c hm => ?_⟩ <;> simp at hm
  rw [if_neg h1]
  by_cases h2 : truthy (chatApiKey env) = false
  · rw [if_pos h2]
    refine ⟨fun c s hm => ?_, fun c hm => ?_⟩ <;> simp at hm
  rw [if_neg h2]
  by_cases h3 : truthy env.databaseUrl = false
  · rw [if_pos h3]
    refine ⟨fun c s hm => ?_, fun c hm => ?_⟩ <;> simp at hm
  rw [if_neg h3]
  by_cases h4 : cOk = false
  · rw [if_pos h4]
    refine ⟨fun c s hm => ?_, fun c hm => ?_⟩ <;> simp at hm
  rw [if_neg h4]
  cases body with
  | malformed m =>
    refine ⟨fun c s hm => ?_, fun c hm => ?_⟩ <;> simp at hm
  | nullRoot m =>
    refine ⟨fun c s hm => ?_, fun c hm => ?_⟩ <;> simp at hm
  | parsed mv =>
    match mv with
    | none => refine ⟨fun c s hm => ?_, fun c hm => ?_⟩ <;> simp at hm
    | some JVal.nonStr => refine ⟨fun c s hm => ?_, fun c hm => ?_⟩ <;> simp at hm
    | some (JVal.str s) =>
      simp only
      by_cases h5 : s == ""
      · rw [if_pos h5]
        refine ⟨fun c s' hm => ?_, fun c hm => ?_⟩ <;> simp at hm
      rw [if_neg h5]
      by_cases h6 : (ensureRagTableAndSeed bad rows store).2.1 = true
      · rw [if_pos h6]
        refine ⟨fun c s' hm => ?_, fun c hm => ?_⟩ <;>
          · rcases List.mem_cons.mp hm with h | h
            · cases h
            · have hq := htr _ h
              cases hq
      rw [if_neg h6]
      rcases he : embedText resp with m | qv
      · refine ⟨fun c s' hm => ?_, fun c hm => ?_⟩
        · simp only [List.mem_cons, List.mem_append, List.mem_singleton, List.not_mem_nil,
            or_false] at hm
          rcases hm with (hm | hm) | hm
          · cases hm
          · have hq := htr _ hm; cases hq
          · obtain ⟨hc, -⟩ := ExtCall.embedCall.inj hm
            exact hc
        · simp only [List.mem_cons, List.mem_append, List.mem_singleton, List.not_mem_nil,
            or_false] at hm
          rcases hm with (hm | hm) | hm
          · cases hm
          · have hq := htr _ hm; cases hq
          · cases hm
      · refine ⟨fun c s' hm => ?_, fun c hm => ?_⟩
        · simp only [List.append_assoc, List.mem_cons, List.mem_append, List.mem_singleton,
            List.not_mem_nil, or_false] at hm
          rcases hm with (hm | hm) | hm | hm | hm
          · cases hm
          · have hq := htr _ hm; cases hq
          · obtain ⟨hc, -⟩ := ExtCall.embedCall.inj hm
            exact hc
          · cases hm
          · cases hm
        · simp only [List.append_assoc, List.mem_cons, List.mem_append, List.mem_singleton,
            List.not_mem_nil, or_false] at hm
          rcases hm with (hm | hm) | hm | hm | hm
          · cases hm
          · have hq := htr _ hm; cases hq
          · cases hm
          · cases hm
          · exact ExtCall.chatRun.inj hm


theorem postHandler_not_missing_gemini (env : Env) (cOk : Bool) (body : ReqBody)
    (resp : EmbedResp) (bad : Row → Bool) (rows : List Row) (store : Store)
    (seedErrMsg : String)
    (h1 : ¬ truthy (embeddingApiKey env) = false)
    (hbody : body ≠ ReqBody.malformed missingGeminiMsg)
    (hnull : body ≠ ReqBody.nullRoot missingGeminiMsg)
    (hresp : resp.body ≠ missingGeminiMsg)
    (hseed : seedErrMsg ≠ missingGeminiMsg) :
    (postHandler env cOk body resp bad rows store seedErrMsg).1
      ≠ PostOutcome.jsonError 500 missingGeminiMsg := by
  intro h
  unfold postHandler at h
  rw [if_neg h1] at h
  by_cases h2 : truthy (chatApiKey env) = false
  · rw [if_pos h2] at h
    simp only [PostOutcome.jsonError.injEq] at h
    exact absurd h.2 (by decide)
  rw [if_neg h2] at h
  by_cases h3 : truthy env.databaseUrl = false
  · rw [if_pos h3] at h
    simp only [PostOutcome.jsonError.injEq] at h
    exact absurd h.2 (by decide)
  rw [if_neg h3] at h
  by_cases h4 : cOk = false
  · rw [if_pos h4] at h
    simp only [PostOutcome.jsonError.injEq] at h
    exact absurd h.2 (by decide)
  rw [if_neg h4] at h
  cases body with
  | malformed m =>
    simp only [PostOutcome.jsonError.injEq] at h
    exact hbody (by rw [h.2])
  | nullRoot m =>
    simp only [PostOutcome.jsonError.injEq] at h
    exact hnull (by rw [h.2])
  | parsed mv =>
    match mv with
    | none =>
      simp only [PostOutcome.jsonError.injEq] at h
      exact absurd h.1 (by decide)
    | some JVal.nonStr =>
      simp only [PostOutcome.jsonError.injEq] at h
      exact absurd h.1 (by decide)
    | some (JVal.str s) =>
      simp only at h
      by_cases h5 : s == ""
      · rw [if_pos h5] at h
        simp only [PostOutcome.jsonError.injEq] at h
        exact absurd h.1 (by decide)
      rw [if_neg h5] at h
      by_cases h6 : (ensureRagTableAndSeed bad rows store).2.1 = true
      · rw [if_pos h6] at h
        simp only [PostOutcome.jsonError.injEq] at h
        exact hseed h.2
      rw [if_neg h6] at h
      rcases he : embedText resp with m | qv
      · rw [he] at h
        simp only [PostOutcome.jsonError.injEq] at h
        unfold embedText at he
        by_cases hok : resp.ok
        · rw [if_pos hok] at he
          cases he
        · rw [if_neg hok] at he
          cases he
          exact hresp h.2
      · rw [he] at h
        simp at h

/-- Claim C10 is false as stated: with `GEMINI_API_KEY` set to the empty
string and `OPENAI_API_KEY` unset, the JS falsiness check
`!EMBEDDING_API_KEY` fires, so the program returns the
`"Missing Gemini API key"` 500 response even though the two variables are
not both unset (and the single set credential is not used for any call). -/
theorem missing_gemini_empty_string_counterexample :
    (postHandler ⟨some (""), none, some ("db")⟩ true (ReqBody.parsed none)
        ⟨true, "b", []⟩ (fun _ => false) [] [] "e").1
      = PostOutcome.jsonError 500 missingGeminiMsg
    ∧ (⟨some (""), none, some ("db")⟩ : Env).gemini ≠ none :=
  ⟨by decide, by decide⟩

/-- Claim C10, amended: the `"Missing Gemini API key"` response is returned
if and only if `GEMINI_API_KEY` and `OPENAI_API_KEY` are both falsy — each
unset or set to the empty string — matching the JS check
`!(GEMINI_API_KEY || OPENAI_API_KEY)`; the hypotheses only rule out
echoed error texts (the JSON parse message, the null-destructure message,
the upstream embedding body, the datastore driver's message) that happen to
repeat that literal.  When exactly one of the two variables holds a
non-empty value, that value is both `EMBEDDING_API_KEY` and `CHAT_API_KEY`,
and every embedding call and chat run in the trace carries it as the bearer
credential. -/
theorem missing_gemini_iff_no_truthy_key (env : Env) (cOk : Bool) (body : ReqBody)
    (resp : EmbedResp) (bad : Row → Bool) (rows : List Row) (store : Store)
    (seedErrMsg : String)
    (hbody : body ≠ ReqBody.malformed missingGeminiMsg)
    (hnull : body ≠ ReqBody.nullRoot missingGeminiMsg)
    (hresp : resp.body ≠ missingGeminiMsg)
    (hseed : seedErrMsg ≠ missingGeminiMsg) :
    ((postHandler env cOk body resp bad rows store seedErrMsg).1
        = PostOutcome.jsonError 500 missingGeminiMsg
      ↔ truthy env.gemini = false ∧ truthy env.openai = false)
    ∧ (∀ k, ¬ k = "" →
        (env.gemini = some k ∧ truthy env.openai = false)
          ∨ (env.openai = some k ∧ truthy env.gemini = false) →
        embeddingApiKey env = some k ∧ chatApiKey env = some k)
    ∧ (∀ c s, ExtCall.embedCall c s ∈ (postHandler env cOk body resp bad rows store seedErrMsg).2 →
        c = embeddingApiKey env)
    ∧ (∀ c, ExtCall.chatRun c ∈ (postHandler env cOk body resp bad rows store seedErrMsg).2 →
        c = chatApiKey env) := by
  refine ⟨?_, ?_, (postHandler_call_keys env cOk body resp bad rows store seedErrMsg).1,
    (postHandler_call_keys env cOk body resp bad rows store seedErrMsg).2⟩
  · by_cases h1 : truthy (embeddingApiKey env) = false
    · have houtcome : (postHandler env cOk body resp bad rows store seedErrMsg).1
          = PostOutcome.jsonError 500 missingGeminiMsg := by
        unfold postHandler
        rw [if_pos h1]
      exact iff_of_true houtcome ((truthy_embeddingApiKey_false_iff env).mp h1)
    · exact iff_of_false
        (postHandler_not_missing_gemini env cOk body resp bad rows store seedErrMsg h1
          hbody hnull hresp hseed)
        (fun hh => h1 ((truthy_embeddingApiKey_false_iff env).mpr hh))
  · intro k hk hcase
    have htk : truthy (some k) = true := by simp [truthy, hk]
    rcases hcase with ⟨hg, ho⟩ | ⟨ho, hg⟩
    · constructor
      · simp [embeddingApiKey, jsOr, hg, htk]
      · simp [chatApiKey, jsOr, ho, hg]
    · constructor
      · simp [embeddingApiKey, jsOr, hg, ho]
      · simp [chatApiKey, jsOr, ho, htk]

theorem missing_gemini_witness :
    (postHandler ⟨none, none, some ("db")⟩ true (ReqBody.parsed none) ⟨true, "b", []⟩
        (fun _ => false) [] [] "e").1
      = PostOutcome.jsonError 500 missingGeminiMsg :=
  ((missing_gemini_iff_no_truthy_key ⟨none, none, some ("db")⟩ true (ReqBody.parsed none)
      ⟨true, "b", []⟩ (fun _ => false) [] [] "e"
      (by decide) (by decide) (by decide) (by decide)).1).mpr ⟨rfl, rfl⟩

end ResumeRag
